import Mathlib

/-!
# Verification of the method-boundary extraction engine

Shallow embedding of `stackTrace.ts` (the `cleanLine`, `findMethodBoundaries`
and `getCodeContext` functions) of the mcp-error-tracing repository, together
with theorems settling the frozen claims about it.

Conventions of the embedding:
* a JS string is modelled as `List Char` (for the lexical helpers) or `String`
  (for whole lines); JS line arrays are `List String`;
* JS `number` indices and line numbers are `Int` (so out-of-range and negative
  values behave as in the source); internal non-negative indices are `Nat`;
* the three regular expressions used via `.test` are embedded as terms of a
  small regex AST `Rx` run by a backtracking matcher `mrun`; `.test` only asks
  for the existence of a match, so the matcher returns exactly that;
* the `String.replace` calls with regexes are embedded by dedicated functions
  (`removeBlockComments`, `replaceDQ`, `replaceSQ`) that reproduce the
  left-to-right global-replace semantics of the concrete patterns.
-/

/-- JS `\s` (and `String.prototype.trim`) whitespace, restricted to the
characters that can occur in a line of source text. -/
def isJsSpace (c : Char) : Bool :=
  c == ' ' || c == '\t' || c == '\n' || c == '\r' || c == '\x0b' || c == '\x0c' || c == '\xa0'

/-- JS `\w`: ASCII letters, digits and underscore. -/
def isWordChar (c : Char) : Bool :=
  ('a' ≤ c && c ≤ 'z') || ('A' ≤ c && c ≤ 'Z') || ('0' ≤ c && c ≤ '9') || c == '_'

/-- Index of the first occurrence of `pat` in `s` (JS `String.prototype.indexOf`,
with `none` for `-1`). -/
def firstIdx (pat : List Char) : List Char → Option Nat
  | [] => if pat.isPrefixOf ([] : List Char) then some 0 else none
  | c :: t => if pat.isPrefixOf (c :: t) then some 0 else (firstIdx pat t).map (· + 1)

/-- JS `String.prototype.trim` on a character list. -/
def trimL (l : List Char) : List Char :=
  ((l.dropWhile isJsSpace).reverse.dropWhile isJsSpace).reverse

/-- Regex AST covering the constructs used by the three source patterns:
characters, classes, concatenation, alternation, star, negative lookahead
`(?!...)`, the word boundary `\b` and the end anchor `$`.  All three source
patterns are anchored with `^`, so matching always starts at position 0. -/
inductive Rx where
  | emp : Rx
  | ch (c : Char) : Rx
  | cl (p : Char → Bool) : Rx
  | cat (a b : Rx) : Rx
  | alt (a b : Rx) : Rx
  | star (a : Rx) : Rx
  | nla (a : Rx) : Rx
  | wb : Rx
  | eos : Rx

/-- Optional occurrence, `(r)?`. -/
def Rx.opt (a : Rx) : Rx := .alt a .emp

/-- One or more occurrences, `(r)+`. -/
def Rx.plus (a : Rx) : Rx := .cat a (.star a)

/-- Sequence of regexes. -/
def rseq (l : List Rx) : Rx := l.foldr .cat .emp

/-- Alternation of a list of regexes (empty list never matches). -/
def ralt : List Rx → Rx
  | [] => .cl (fun _ => false)
  | [r] => r
  | r :: rest => .alt r (ralt rest)

/-- Literal string regex. -/
def rlit (s : String) : Rx := rseq (s.toList.map Rx.ch)

/-- Is the optional character a word character (for `\b`)? -/
def isWordB : Option Char → Bool
  | none => false
  | some c => isWordChar c

/-- Backtracking matcher in continuation style.  `prev` is the character to the
left of the current position (for `\b`), `k` the continuation.  The fuel only
bounds recursion depth; `rxTest` supplies enough for any input, so the matcher
decides existence of a match exactly.  A `star` iteration must consume input
(all star bodies in the source patterns do), matching the JS engine's rule
that an empty-width star iteration stops the loop. -/
def mrun : Nat → Rx → Option Char → List Char → (Option Char → List Char → Bool) → Bool
  | 0, _, _, _, _ => false
  | Nat.succ f, r, prev, s, k =>
    match r with
    | .emp => k prev s
    | .ch c =>
      match s with
      | [] => false
      | x :: t => x == c && k (some x) t
    | .cl p =>
      match s with
      | [] => false
      | x :: t => p x && k (some x) t
    | .cat a b => mrun f a prev s (fun p' s' => mrun f b p' s' k)
    | .alt a b => mrun f a prev s k || mrun f b prev s k
    | .star a =>
      k prev s ||
        mrun f a prev s (fun p' s' =>
          if s'.length < s.length then mrun f (.star a) p' s' k else false)
    | .nla a => !(mrun f a prev s (fun _ _ => true)) && k prev s
    | .wb => (isWordB prev != (match s with | [] => false | x :: _ => isWordChar x)) && k prev s
    | .eos => s.isEmpty && k prev s

/-- Fuel amply covering the recursion depth of `mrun` on the source patterns. -/
def rxFuel (cs : List Char) : Nat := 1000 + 1000 * cs.length

/-- JS `regex.test(s)` for a `^`-anchored regex. -/
def rxTest (r : Rx) (cs : List Char) : Bool :=
  mrun (rxFuel cs) r none cs (fun _ _ => true)

/-- Whitespace run, `\s*`. -/
def ws0 : Rx := .star (.cl isJsSpace)

/-- Nonempty whitespace run, `\s+`. -/
def ws1 : Rx := Rx.plus (.cl isJsSpace)

/-- One annotation, `@[\w.]+(\([^)]*\))?`, as used by all three patterns. -/
def annotBody : Rx :=
  rseq [.ch '@', Rx.plus (.cl (fun c => isWordChar c || c == '.')),
    Rx.opt (rseq [.ch '(', .star (.cl (fun c => c != ')')), .ch ')'])]

/-- Source regex `^\s*@[\w.]+(\([^)]*\))?\s*$`: a line that is a single annotation. -/
def annotationPattern : Rx := rseq [ws0, annotBody, ws0, .eos]

/-- The modifier keywords of the method-signature pattern. -/
def modifierKws : List String :=
  ["public", "private", "protected", "static", "final", "synchronized",
   "native", "abstract", "default", "strictfp"]

/-- Source regex `^\s*(@[\w.]+(\([^)]*\))?\s*)*(public|private|protected|static|final|synchronized|native|abstract|default|strictfp)\b`. -/
def methodStartPattern : Rx :=
  rseq [ws0, .star (.cat annotBody ws0), ralt (modifierKws.map rlit), .wb]

/-- The source repeats the same regex literal under the name
`methodSignaturePattern` inside `getCodeContext`. -/
def methodSignaturePattern : Rx := methodStartPattern

/-- The control keywords excluded by the negative lookahead. -/
def ctrlKws : List String :=
  ["return", "throw", "new", "case", "else", "if", "while", "for", "switch"]

/-- Source regex `^\s*(?!return\b|throw\b|new\b|case\b|else\b|if\b|while\b|for\b|switch\b)(<[^>]+>\s*)?(void|boolean|byte|char|short|int|long|float|double|[A-Z]\w*[\w<>\[\].,\s]*)\s+\w+\s*\(`. -/
def packageMethodPattern : Rx :=
  rseq [ws0,
    .nla (ralt (ctrlKws.map (fun k => .cat (rlit k) .wb))),
    Rx.opt (rseq [.ch '<', Rx.plus (.cl (fun c => c != '>')), .ch '>', ws0]),
    ralt [rlit "void", rlit "boolean", rlit "byte", rlit "char", rlit "short",
      rlit "int", rlit "long", rlit "float", rlit "double",
      rseq [.cl (fun c => 'A' ≤ c && c ≤ 'Z'), .star (.cl isWordChar),
        .star (.cl (fun c => isWordChar c || c == '<' || c == '>' || c == '[' ||
          c == ']' || c == '.' || c == ',' || isJsSpace c))]],
    ws1, Rx.plus (.cl isWordChar), ws0, .ch '(']

/-! ## The lexical scrubber `cleanLine` -/

/-- The text-block delimiter of three double quotes. -/
def tq : List Char := ['\x22', '\x22', '\x22']

/-- Scan for the closing quote of a double-quoted literal, honouring `\`
escapes (`"(?:[^"\\]|\\.)*"` after the opening quote): returns the remainder
after the closing quote, or `none` if the literal never closes on this line.
`\` cannot escape a line terminator because `.` does not match those. -/
def scanCloseDQ : List Char → Option (List Char)
  | [] => none
  | '\x22' :: r => some r
  | '\\' :: [] => none
  | '\\' :: c :: r =>
    if c == '\n' || c == '\r' || c == '\u2028' || c == '\u2029' then none else scanCloseDQ r
  | _ :: r => scanCloseDQ r

/-- Same for single-quoted literals. -/
def scanCloseSQ : List Char → Option (List Char)
  | [] => none
  | '\x27' :: r => some r
  | '\\' :: [] => none
  | '\\' :: c :: r =>
    if c == '\n' || c == '\r' || c == '\u2028' || c == '\u2029' then none else scanCloseSQ r
  | _ :: r => scanCloseSQ r

/-- Embeds `cleaned.replace(/"(?:[^"\\]|\\.)*"/g, '""')`: every well-formed
double-quoted literal is replaced by an empty one; an unterminated opening
quote is left in place.  Fuel: each step consumes at least one character. -/
def replaceDQAux : Nat → List Char → List Char
  | 0, s => s
  | f + 1, s =>
    match s with
    | [] => []
    | '\x22' :: t =>
      match scanCloseDQ t with
      | some rest => '\x22' :: '\x22' :: replaceDQAux f rest
      | none => '\x22' :: replaceDQAux f t
    | c :: t => c :: replaceDQAux f t

def replaceDQ (s : List Char) : List Char := replaceDQAux s.length s

/-- Embeds `cleaned.replace(/'(?:[^'\\]|\\.)*'/g, "''")`. -/
def replaceSQAux : Nat → List Char → List Char
  | 0, s => s
  | f + 1, s =>
    match s with
    | [] => []
    | '\x27' :: t =>
      match scanCloseSQ t with
      | some rest => '\x27' :: '\x27' :: replaceSQAux f rest
      | none => '\x27' :: replaceSQAux f t
    | c :: t => c :: replaceSQAux f t

def replaceSQ (s : List Char) : List Char := replaceSQAux s.length s

/-- Embeds `cleaned.replace(/\/\*[^]*?\*\//g, '')`: repeatedly remove the leftmost
`/*`-to-nearest-`*/` span (the `*/` must start at least two characters past
the `/*`).  If the first `/*` has no closing `*/` after it, no later `/*` can
have one either, so the string is returned unchanged.  Fuel: each step
consumes at least four characters. -/
def rbcAux : Nat → List Char → List Char
  | 0, s => s
  | f + 1, s =>
    match firstIdx ['/', '*'] s with
    | none => s
    | some i =>
      match firstIdx ['*', '/'] (s.drop (i + 2)) with
      | none => s
      | some j => s.take i ++ rbcAux f (s.drop (i + 2 + j + 2))

def removeBlockComments (s : List Char) : List Char := rbcAux s.length s

/-- Embeds `const commentIndex = cleaned.indexOf('//'); if (commentIndex !== -1) ...`. -/
def truncAtLineComment (s : List Char) : List Char :=
  match firstIdx ['/', '/'] s with
  | none => s
  | some k => s.take k

/-- Embeds `cleanLine(line, inTextBlock)`: removes text-block content (tracking the
cross-line `active` flag), then everything after the first `//`, then
single-line block comments, then the bodies of string literals.  Returns the
scrubbed line together with the new value of `inTextBlock.active`. -/
def cleanLine (line : List Char) (active : Bool) : List Char × Bool :=
  match (if active then
           match firstIdx tq line with
           | some e => some (line.drop (e + 3))
           | none => none
         else some line) with
  | none => ([], true)  -- the whole line is inside a text block: return ''
  | some cleaned0 =>
    let step2 : List Char × Bool :=
      match firstIdx tq cleaned0 with
      | none => (cleaned0, false)
      | some b =>
        match firstIdx tq (cleaned0.drop (b + 3)) with
        | some e2 => (cleaned0.take b ++ cleaned0.drop (b + 3 + e2 + 3), false)
        | none => (cleaned0.take b, true)
    (replaceSQ (replaceDQ (removeBlockComments (truncAtLineComment step2.1))), step2.2)

/-! ## `findMethodBoundaries` -/

/-- The pair `methodStart`/`methodEnd`, absolute 1-based (via `startLineNumber`). -/
structure MethodBoundaries where
  methodStart : Int
  methodEnd : Int
deriving DecidableEq, Repr

/-- Does `line` (raw) qualify as the end of a signature in the forward scan:
either it contains `{`, or it ends with `;` and looks like a declaration
(matched parens, no `.` before the `(`, no `=`). -/
def sigEndQualify (rawSig : String) : Bool :=
  let l := rawSig.toList
  let sigLine := trimL l
  let hasOpeningBrace := (firstIdx ['\x7b'] sigLine).isSome
  let endsWithSemicolon := sigLine.getLast? == some ';'
  let looksLikeDeclarationWithSemicolon :=
    if endsWithSemicolon then
      match firstIdx ['('] l with
      | none => false
      | some parenIndex =>
        let hasClosingParen := (firstIdx [')'] (l.drop parenIndex)).isSome
        let dotBefore := (l.take (parenIndex + 1)).contains '.'
        let hasAssignment := l.contains '='
        hasClosingParen && !dotBefore && !hasAssignment
    else false
  hasOpeningBrace || looksLikeDeclarationWithSemicolon

/-- The forward scan for the end of the signature: `j` runs from `i` while
`j < lines.length`, with a break once `j - i > 30` (so `j` ranges over
`i .. min (length-1) (i+31)`), returning the first qualifying line. -/
def fwdScanEnd (lines : List String) (i : Nat) : Option Nat :=
  (List.range' i (min lines.length (i + 32) - i)).find? (fun j => sigEndQualify (lines.getD j ""))

/-- Does `line` qualify as the start of a method signature: either the
modifier pattern matches, or the package-visibility pattern matches and the
extra guards (no `.` before `(`, no `=`, no leading control keyword) pass. -/
def candidateTest (line : String) : Bool :=
  let l := line.toList
  let trimmed := trimL l
  let hasModifier := rxTest methodStartPattern l
  let safePackageCandidate :=
    if !hasModifier && rxTest packageMethodPattern l then
      match firstIdx ['('] l with
      | none => false  -- parenIndex === -1
      | some parenIndex =>
        let dotBefore := (l.take (parenIndex + 1)).contains '.'
        let hasAssignment := l.contains '='
        !dotBefore && !hasAssignment
    else false
  let isPackageMethod :=
    !hasModifier && safePackageCandidate &&
    !(List.isPrefixOf "if".toList trimmed) &&
    !(List.isPrefixOf "while".toList trimmed) &&
    !(List.isPrefixOf "for".toList trimmed) &&
    !(List.isPrefixOf "switch".toList trimmed) &&
    !(List.isPrefixOf "return".toList trimmed) &&
    !(List.isPrefixOf "throw".toList trimmed) &&
    !(List.isPrefixOf "else".toList trimmed) &&
    !(List.isPrefixOf "case ".toList trimmed)
  hasModifier || isPackageMethod

/-- The backward scan (`for (let i = targetLineIndex; i >= 0; i--)`) over the
decreasing index list, fuel-indexed (`scanBackL` supplies `length + 1`, which
always suffices since every step strictly shortens the list).  Skips blank
lines and comment lines; on a line containing `*/` it jumps up to the line
containing `/*` (the inner `while`) and resumes above it; on a candidate line
it runs the forward scan and succeeds only if that scan finds the signature
end (otherwise the source leaves `signatureEndIndex === -1` for this
candidate and keeps scanning upward). -/
def scanBackAux (lines : List String) : Nat → List Nat → Option (Nat × Nat)
  | 0, _ => none
  | _, [] => none
  | f + 1, i :: rest =>
    let line := lines.getD i ""
    let trimmed := trimL line.toList
    if trimmed.isEmpty then scanBackAux lines f rest
    else if List.isPrefixOf "//".toList trimmed || List.isPrefixOf "*".toList trimmed then
      scanBackAux lines f rest
    else if (firstIdx "*/".toList line.toList).isSome then
      scanBackAux lines f
        (List.tail (List.dropWhile
          (fun j => !(firstIdx "/*".toList ((lines.getD j "").toList)).isSome) (i :: rest)))
    else if candidateTest line then
      match fwdScanEnd lines i with
      | some j => some (i, j)
      | none => scanBackAux lines f rest
    else scanBackAux lines f rest

def scanBackL (lines : List String) (l : List Nat) : Option (Nat × Nat) :=
  scanBackAux lines (l.length + 1) l

/-- The indices `targetLineIndex, targetLineIndex - 1, ..., 0` visited by the
backward scan (empty when `targetLineIndex < 0`). -/
def idxList (t : Int) : List Nat :=
  if t < 0 then [] else (List.range (t.toNat + 1)).reverse

/-- The upward merge of contiguous annotation lines: walks up from
`signatureStartIndex - 1` while the line is a pure annotation, stopping at a
blank line, a `//` line, or any other line. -/
def mergeAnnot (lines : List String) : Nat → Nat
  | 0 => 0
  | k + 1 =>
    let line := lines.getD k ""
    let trimmed := trimL line.toList
    if trimmed.isEmpty then k + 1
    else if List.isPrefixOf "//".toList trimmed then k + 1
    else if rxTest annotationPattern line.toList then mergeAnnot lines k
    else k + 1

/-- Bodyless-declaration test on the raw signature line: `/;\s*$/` holds and
the line contains no `{`. -/
def bodylessAt (lines : List String) (j : Nat) : Bool :=
  let signatureLine := (lines.getD j "").toList
  let endsWithSemicolon := (signatureLine.reverse.dropWhile isJsSpace).head? == some ';'
  let hasOpeningBraceOnSignature := (firstIdx ['\x7b'] signatureLine).isSome
  endsWithSemicolon && !hasOpeningBraceOnSignature

/-- Count braces in a scrubbed line, updating level and the seen-a-`{` flag. -/
def countBraces : List Char → Int → Bool → Int × Bool
  | [], lvl, seen => (lvl, seen)
  | c :: r, lvl, seen =>
    if c = '\x7b' then countBraces r (lvl + 1) true
    else if c = '\x7d' then countBraces r (lvl - 1) seen
    else countBraces r lvl seen

/-- Result of the brace-counting loop: `brk` is the index at which the level
returned to zero after an opening brace (the loop's `break`), `seen` and
`level` the final state when the loop instead ran off the end of the file. -/
structure BraceScan where
  brk : Option Nat
  seen : Bool
  level : Int
deriving DecidableEq, Repr

/-- The brace-counting loop from the signature-end line to the end of file,
threading the text-block state through `cleanLine`. -/
def braceLoop : List String → Nat → Bool → Int → Bool → BraceScan
  | [], _, _, lvl, seen => ⟨none, seen, lvl⟩
  | raw :: rest, i, tb, lvl, seen =>
    let r := cleanLine raw.toList tb
    let cb := countBraces r.1 lvl seen
    if cb.2 && cb.1 == 0 then ⟨some i, cb.2, cb.1⟩
    else braceLoop rest (i + 1) r.2 cb.1 cb.2

/-- Embeds `findMethodBoundaries(lines, targetLineIndex, startLineNumber)`. -/
def findMethodBoundaries (lines : List String) (targetLineIndex : Int)
    (startLineNumber : Int) : Option MethodBoundaries :=
  match scanBackL lines (idxList targetLineIndex) with
  | none => none  -- signatureStartIndex === -1 || signatureEndIndex === -1
  | some (signatureStartIndex, signatureEndIndex) =>
    let methodStartIndex := mergeAnnot lines signatureStartIndex
    if bodylessAt lines signatureEndIndex then
      some ⟨startLineNumber + methodStartIndex, startLineNumber + signatureEndIndex⟩
    else
      let scan := braceLoop (lines.drop signatureEndIndex) signatureEndIndex false 0 false
      let methodEndIndex :=
        match scan.brk with
        | some i => i
        | none =>
          if !scan.seen then signatureEndIndex
          else if scan.level != 0 then lines.length - 1
          else signatureEndIndex
      some ⟨startLineNumber + methodStartIndex, startLineNumber + methodEndIndex⟩

/-! ## The orchestrator `getCodeContext` -/

/-- The externally visible result `{ code, startLine, endLine }`. -/
structure CodeContext where
  code : String
  startLine : Int
  endLine : Int
deriving DecidableEq, Repr

/-- Fields `error.response?.status` and `error.message` of an axios error; the
template literal stringifies a missing status as `undefined`. -/
structure AxiosErrorInfo where
  status : Option Int
  message : String
deriving DecidableEq, Repr

/-- The exceptions observable from `getCodeContext`: axios errors from the
file fetch, and ordinary `Error`s (the out-of-range throw). -/
inductive JsError where
  | axios (e : AxiosErrorInfo) : JsError
  | generic (msg : String) : JsError
deriving DecidableEq, Repr

/-- JS `Array.prototype.slice(begin, end)` with the clamping and
negative-index semantics of ECMAScript. -/
def jsSlice (l : List String) (s e : Int) : List String :=
  let n : Int := l.length
  let s' := if s < 0 then max 0 (n + s) else min s n
  let e' := if e < 0 then max 0 (n + e) else min e n
  (l.drop s'.toNat).take (e' - s').toNat

/-- The re-scan of the resolved range for a line matching
`methodSignaturePattern` (`for (let i = methodStartIndex; i <= methodEndIndex; i++)`),
iterated as a count of `(e + 1 - i)` steps. -/
def sigRescanAux : List String → Int → Nat → Option Int
  | _, _, 0 => none
  | lines, i, c + 1 =>
    if rxTest methodSignaturePattern ((lines.getD i.toNat "").toList) then some i
    else sigRescanAux lines (i + 1) c

def sigRescan (lines : List String) (i e : Int) : Option Int :=
  sigRescanAux lines i (e + 1 - i).toNat

/-- The success branch of `getCodeContext`: relocate the signature line inside
the resolved range (to avoid returning annotations) and slice the original,
unscrubbed lines. -/
def methodRangeResult (allLines : List String) (mb : MethodBoundaries) : CodeContext :=
  let methodStartIndex : Int := mb.methodStart - 1
  let methodEndIndex : Int := mb.methodEnd - 1
  let signatureIndex := sigRescan allLines methodStartIndex methodEndIndex
  let startIndex := signatureIndex.getD methodStartIndex
  let endIndex := methodEndIndex
  let methodLines := jsSlice allLines startIndex (endIndex + 1)
  ⟨String.intercalate "\n" methodLines, startIndex + 1, endIndex + 1⟩

/-- The fallback branch: a window of `reasonableContext = 50` lines around the
target, clamped via `Math.max`/`Math.min`. -/
def fallbackResult (allLines : List String) (targetLine : Int) : CodeContext :=
  let reasonableContext : Int := 50
  let fallbackStart := max 0 (targetLine - 1 - reasonableContext)
  let fallbackEnd := min ((allLines.length : Int) - 1) (targetLine - 1 + reasonableContext)
  let contextLines := jsSlice allLines fallbackStart (fallbackEnd + 1)
  ⟨String.intercalate "\n" contextLines, fallbackStart + 1, fallbackEnd + 1⟩

/-- The body of `getCodeContext` after the file content has been fetched and
split into lines: the range check (which throws), then boundary detection
with the two result branches. -/
def getCodeContextLines (allLines : List String) (targetLine : Int) :
    Except JsError CodeContext :=
  if targetLine > (allLines.length : Int) then
    .error (.generic ("Target line " ++ toString targetLine ++
      " exceeds file length " ++ toString allLines.length))
  else
    match findMethodBoundaries allLines (targetLine - 1) 1 with
    | some methodBoundaries => .ok (methodRangeResult allLines methodBoundaries)
    | none => .ok (fallbackResult allLines targetLine)

/-- JS `String.prototype.split('\n')` on a character list: cut at every
newline, keeping empty segments (an empty text gives one empty line). -/
def splitNl : List Char → List (List Char)
  | [] => [[]]
  | c :: t =>
    if c = '\n' then [] :: splitNl t
    else
      match splitNl t with
      | [] => [[c]]  -- unreachable: splitNl never returns []
      | h :: r => (c :: h) :: r

/-- Embeds `response.data.split('\n')`. -/
def splitLines (fileText : String) : List String :=
  (splitNl fileText.toList).map (fun l => String.mk l)

/-- Function `getCodeContext` on the raw file text (the fetch treated as an external
collaborator that already returned `fileText`). -/
def getCodeContext (fileText : String) (targetLine : Int) : Except JsError CodeContext :=
  getCodeContextLines (splitLines fileText) targetLine

/-- The `catch` branch's message: `[无法获取代码: ${status} - ${message}]`. -/
def axiosFailCode (e : AxiosErrorInfo) : String :=
  "[无法获取代码: " ++ (match e.status with | none => "undefined" | some n => toString n) ++
    " - " ++ e.message ++ "]"

/-- The whole `try`/`catch` of `getCodeContext`, with the upstream fetch
abstracted as its outcome: an axios error is converted into a placeholder
`CodeContext` pinned to the target line, every other exception (in
particular the out-of-range `Error`) is rethrown. -/
def getCodeContextFetch (fetchResult : Except AxiosErrorInfo (List String))
    (targetLine : Int) : Except JsError CodeContext :=
  let body : Except JsError CodeContext :=
    match fetchResult with
    | .error e => .error (.axios e)
    | .ok allLines => getCodeContextLines allLines targetLine
  match body with
  | .error (.axios e) => .ok ⟨axiosFailCode e, targetLine, targetLine⟩
  | .error (.generic msg) => .error (.generic msg)
  | .ok c => .ok c

/-- The original, unscrubbed text of lines `a..b` (1-based, both inclusive) of
the file, joined with newlines: the specification-side description of what the
`code` field of a `CodeContext` reporting `startLine = a`, `endLine = b`
should contain. -/
def origRange (lines : List String) (a b : Int) : String :=
  String.intercalate "\n" ((lines.drop (a - 1).toNat).take (b - a + 1).toNat)

/-! ## Helper lemmas about the scan components -/

theorem mergeAnnot_le (lines : List String) : ∀ k, mergeAnnot lines k ≤ k := by
  intro k
  induction k with
  | zero => simp [mergeAnnot]
  | succ n ih =>
    unfold mergeAnnot
    dsimp only
    split_ifs
    · exact le_refl _
    · exact le_refl _
    · exact le_trans ih (Nat.le_succ n)
    · exact le_refl _

theorem fwdScanEnd_bounds (lines : List String) (i j : Nat)
    (h : fwdScanEnd lines i = some j) : i ≤ j ∧ j < lines.length := by
  unfold fwdScanEnd at h
  have hm := List.mem_of_find?_eq_some h
  obtain ⟨k, hk, rfl⟩ := List.mem_range'.mp hm
  omega

theorem sigRescanAux_bounds (lines : List String) :
    ∀ (c : Nat) (i v : Int), sigRescanAux lines i c = some v → i ≤ v ∧ v < i + c := by
  intro c
  induction c with
  | zero => intro i v h; simp [sigRescanAux] at h
  | succ n ih =>
    intro i v h
    unfold sigRescanAux at h
    split at h
    · cases h; omega
    · have := ih (i + 1) v h
      omega

theorem sigRescan_bounds (lines : List String) (i e v : Int)
    (h : sigRescan lines i e = some v) : i ≤ v ∧ v ≤ e := by
  unfold sigRescan at h
  have hb := sigRescanAux_bounds lines _ i v h
  rcases hb with ⟨h1, h2⟩
  refine ⟨h1, ?_⟩
  by_cases hc : 0 ≤ e + 1 - i
  · rw [Int.toNat_of_nonneg hc] at h2; omega
  · have : (e + 1 - i).toNat = 0 := by omega
    rw [this] at h2; omega

theorem braceLoop_brk_bounds :
    ∀ (rest : List String) (i : Nat) (tb : Bool) (lvl : Int) (seen : Bool) (k : Nat)
      (se : Bool) (lv : Int), braceLoop rest i tb lvl seen = ⟨some k, se, lv⟩ →
      i ≤ k ∧ k < i + rest.length := by
  intro rest
  induction rest with
  | nil => intro i tb lvl seen k se lv h; simp [braceLoop] at h
  | cons raw t ih =>
    intro i tb lvl seen k se lv h
    unfold braceLoop at h
    dsimp only at h
    split at h
    · cases h; simp only [List.length_cons]; omega
    · have := ih (i + 1) _ _ _ k se lv h
      simp only [List.length_cons]
      omega

theorem scanBackAux_some (lines : List String) :
    ∀ (f : Nat) (l : List Nat) (i j : Nat), scanBackAux lines f l = some (i, j) →
      i ∈ l ∧ fwdScanEnd lines i = some j := by
  intro f
  induction f with
  | zero => intro l i j h; simp [scanBackAux] at h
  | succ n ih =>
    intro l i j h
    cases l with
    | nil => simp [scanBackAux] at h
    | cons a rest =>
      unfold scanBackAux at h
      dsimp only at h
      split_ifs at h with h1 h2 h3 h4
      · have := ih rest i j h
        exact ⟨List.mem_cons_of_mem a this.1, this.2⟩
      · have := ih rest i j h
        exact ⟨List.mem_cons_of_mem a this.1, this.2⟩
      · have := ih _ i j h
        have hsub : (List.dropWhile
            (fun j => !(firstIdx "/*".toList ((lines.getD j "").toList)).isSome)
            (a :: rest)).tail ⊆ a :: rest :=
          ((List.tail_sublist _).trans (List.dropWhile_sublist _)).subset
        exact ⟨hsub this.1, this.2⟩
      · revert h
        split
        · intro h
          rename_i j' hj'
          cases h
          exact ⟨List.mem_cons_self _ _, hj'⟩
        · intro h
          have := ih rest i j h
          exact ⟨List.mem_cons_of_mem a this.1, this.2⟩
      · have := ih rest i j h
        exact ⟨List.mem_cons_of_mem a this.1, this.2⟩

theorem scanBackL_some (lines : List String) (l : List Nat) (i j : Nat)
    (h : scanBackL lines l = some (i, j)) : i ∈ l ∧ fwdScanEnd lines i = some j :=
  scanBackAux_some lines _ l i j h

theorem idxList_mem_le (t : Int) (i : Nat) (h : i ∈ idxList t) : (i : Int) ≤ t := by
  unfold idxList at h
  split at h
  · simp at h
  · rename_i ht
    rw [List.mem_reverse, List.mem_range] at h
    omega

/-- Structure of any successful boundary resolution: the backward scan found a
signature start `i` and end `j`, the reported start is the annotation-merged
index, and the reported end index `b` satisfies
`mergeAnnot ≤ i ≤ j ≤ b < lines.length`. -/
theorem findMB_struct (lines : List String) (tIdx s : Int) (mb : MethodBoundaries)
    (h : findMethodBoundaries lines tIdx s = some mb) :
    ∃ i j b : Nat, scanBackL lines (idxList tIdx) = some (i, j) ∧
      mb.methodStart = s + (mergeAnnot lines i : Int) ∧
      mb.methodEnd = s + (b : Int) ∧
      mergeAnnot lines i ≤ i ∧ i ≤ j ∧ j ≤ b ∧ b < lines.length := by
  unfold findMethodBoundaries at h
  rcases hscan : scanBackL lines (idxList tIdx) with _ | ⟨i, j⟩ <;> rw [hscan] at h
  · simp at h
  · dsimp only at h
    have hij := scanBackL_some lines _ i j hscan
    have hfw := fwdScanEnd_bounds lines i j hij.2
    split at h
    · obtain rfl : mb = _ := (Option.some.inj h).symm
      exact ⟨i, j, j, rfl, rfl, rfl, mergeAnnot_le lines i, hfw.1, le_refl j, hfw.2⟩
    · rcases hb : (braceLoop (lines.drop j) j false 0 false) with ⟨brk, seen, lvl⟩
      rw [hb] at h
      cases brk with
      | some k =>
        dsimp only at h
        have hk := braceLoop_brk_bounds (lines.drop j) j false 0 false k seen lvl hb
        rw [List.length_drop] at hk
        obtain rfl : mb = _ := (Option.some.inj h).symm
        exact ⟨i, j, k, rfl, rfl, rfl, mergeAnnot_le lines i, hfw.1, hk.1, by omega⟩
      | none =>
        dsimp only at h
        split at h
        · obtain rfl : mb = _ := (Option.some.inj h).symm
          exact ⟨i, j, j, rfl, rfl, rfl, mergeAnnot_le lines i, hfw.1, le_refl j, hfw.2⟩
        · split at h
          · obtain rfl : mb = _ := (Option.some.inj h).symm
            refine ⟨i, j, lines.length - 1, rfl, rfl, ?_, mergeAnnot_le lines i, hfw.1,
              by omega, by omega⟩
            show s + ((lines.length : Int) - 1) = s + ((lines.length - 1 : Nat) : Int)
            omega
          · obtain rfl : mb = _ := (Option.some.inj h).symm
            exact ⟨i, j, j, rfl, rfl, rfl, mergeAnnot_le lines i, hfw.1, le_refl j, hfw.2⟩

/-! ## Lemmas about the line-comment truncation -/

theorem firstIdx_dslash_eq (p : List Char) :
    ∀ q q', firstIdx ['/', '/'] (p ++ '/' :: '/' :: q) =
      firstIdx ['/', '/'] (p ++ '/' :: '/' :: q') := by
  induction p with
  | nil =>
    intro q q'
    simp [firstIdx, List.isPrefixOf]
  | cons c rest ih =>
    intro q q'
    have hpe : (['/', '/'].isPrefixOf (c :: (rest ++ '/' :: '/' :: q))) =
        (['/', '/'].isPrefixOf (c :: (rest ++ '/' :: '/' :: q'))) := by
      cases rest with
      | nil => simp [List.isPrefixOf]
      | cons d r2 => simp [List.isPrefixOf]
    simp only [List.cons_append, firstIdx, List.append_eq]
    rw [hpe]
    by_cases hp : (['/', '/'].isPrefixOf (c :: (rest ++ '/' :: '/' :: q'))) = true
    · simp [hp]
    · simp only [Bool.not_eq_true] at hp
      simp [hp, ih q q']

theorem firstIdx_dslash_some (p : List Char) :
    ∀ q, ∃ k, firstIdx ['/', '/'] (p ++ '/' :: '/' :: q) = some k ∧ k ≤ p.length := by
  induction p with
  | nil =>
    intro q
    exact ⟨0, by simp [firstIdx, List.isPrefixOf], Nat.le_refl 0⟩
  | cons c rest ih =>
    intro q
    by_cases hp : (['/', '/'].isPrefixOf (c :: (rest ++ '/' :: '/' :: q))) = true
    · exact ⟨0, by simp [firstIdx, hp], Nat.zero_le _⟩
    · simp only [Bool.not_eq_true] at hp
      obtain ⟨k, hk, hkle⟩ := ih q
      refine ⟨k + 1, ?_, by simp; omega⟩
      simp [firstIdx, hp, hk]

/-- Everything after the first `//` of a line is dropped, so the text behind
the marker is irrelevant to the truncation result. -/
theorem truncLC_append (p q q' : List Char) :
    truncAtLineComment (p ++ '/' :: '/' :: q) = truncAtLineComment (p ++ '/' :: '/' :: q') := by
  unfold truncAtLineComment
  obtain ⟨k, hk, hkle⟩ := firstIdx_dslash_some p q
  have hk' : firstIdx ['/', '/'] (p ++ '/' :: '/' :: q') = some k :=
    (firstIdx_dslash_eq p q' q).trans hk
  rw [hk, hk']
  dsimp only
  rw [List.take_append_of_le_length hkle, List.take_append_of_le_length hkle]

/-! ## Slice lemmas -/

theorem jsSlice_nonneg (l : List String) (s e : Int) (h0 : 0 ≤ s) (h1 : s ≤ (l.length : Int))
    (h2 : 0 ≤ e) (h3 : e ≤ (l.length : Int)) :
    jsSlice l s e = (l.drop s.toNat).take (e - s).toNat := by
  unfold jsSlice
  dsimp only
  rw [if_neg (by omega), if_neg (by omega)]
  have hs : min s (l.length : Int) = s := by omega
  have he : min e (l.length : Int) = e := by omega
  rw [hs, he]

theorem code_eq_origRange (lines : List String) (s e : Int) (h0 : 0 ≤ s)
    (h1 : e < (lines.length : Int)) (h2 : s ≤ e + 1) :
    String.intercalate "\n" (jsSlice lines s (e + 1)) = origRange lines (s + 1) (e + 1) := by
  unfold origRange
  rw [jsSlice_nonneg lines s (e + 1) h0 (by omega) (by omega) (by omega)]
  have ha : s + 1 - 1 = s := by omega
  have hb : e + 1 - (s + 1) + 1 = e + 1 - s := by omega
  rw [ha, hb]

/-! ## The claims -/

/-- Claim C1, counterexample, two independent violations.  First pair: braces
inside a block comment that spans several lines are counted by the brace scan
(`cleanLine` only strips block comments closed on the same line), so
inserting a brace inside the comment on line 2 moves the detected `endLine`
from 4 to 5.  Second pair: `cleanLine` truncates at the first `//` before
removing strings and comments, so in `s = "{ //";` the opening quote is left
unterminated, the brace inside the string literal survives scrubbing, and
inserting it moves `endLine` from 3 to 4. -/
theorem c1_counterexample :
    (getCodeContextLines ["void check() \x7b", "  /* c", "  c */", "\x7d", "int x;"] 1 =
      .ok ⟨"void check() \x7b\n  /* c\n  c */\n\x7d", 1, 4⟩ ∧
    getCodeContextLines ["void check() \x7b", "  /* \x7b c", "  c */", "\x7d", "int x;"] 1 =
      .ok ⟨"void check() \x7b\n  /* \x7b c\n  c */\n\x7d\nint x;", 1, 5⟩) ∧
    (getCodeContextLines ["void f() \x7b", "s = \x22 //\x22;", "\x7d", "int y;"] 1 =
      .ok ⟨"void f() \x7b\ns = \x22 //\x22;\n\x7d", 1, 3⟩ ∧
    getCodeContextLines ["void f() \x7b", "s = \x22\x7b //\x22;", "\x7d", "int y;"] 1 =
      .ok ⟨"void f() \x7b\ns = \x22\x7b //\x22;\n\x7d\nint y;", 1, 4⟩) ∧
    (4 : Int) ≠ 5 :=
  ⟨⟨rfl, rfl⟩, ⟨rfl, rfl⟩, by decide⟩

/-- Claim C1, amended: on a line containing a line-comment marker `//` (and no
text-block delimiter), `cleanLine` is entirely independent of the text behind
the first `//` — so braces there (in particular braces inserted after `//`)
never affect brace counting.  This is the only unconditional scrubbing
guarantee: because the `//` truncation runs before block-comment and string
removal, braces inside multi-line block comments are counted, and a brace
inside a string literal containing `//` also survives scrubbing (both shown
by the counterexample). -/
theorem c1_amended_comment_invariance (pre post post' : List Char)
    (h : firstIdx tq (pre ++ '/' :: '/' :: post) = none)
    (h' : firstIdx tq (pre ++ '/' :: '/' :: post') = none) :
    cleanLine (pre ++ '/' :: '/' :: post) false = cleanLine (pre ++ '/' :: '/' :: post') false := by
  unfold cleanLine
  simp only [Bool.false_eq_true, if_false]
  rw [h, h']
  dsimp only
  rw [truncLC_append pre post post']

/-- Witness for C1 (amended) at a concrete line, inserting braces after `//`. -/
theorem c1_amended_comment_invariance_witness :
    cleanLine ("int x; ".toList ++ '/' :: '/' :: " \x7b\x7b count me".toList) false =
      cleanLine ("int x; ".toList ++ '/' :: '/' :: " nothing".toList) false :=
  c1_amended_comment_invariance _ _ _ (by decide) (by decide)

/-- Claim C2, counterexample: `getCodeContext` only rejects `targetLine`
values exceeding the file length.  `targetLine = 0` violates
`1 <= targetLine` but is not rejected: the call succeeds with a fallback
window instead of failing. -/
theorem c2_counterexample :
    getCodeContext "junk" 0 = .ok ⟨"junk", 1, 1⟩ ∧ ¬(1 ≤ (0 : Int)) :=
  ⟨rfl, by decide⟩

/-- Claim C2, amended: only the upper bound is validated — whenever
`targetLine` exceeds the number of lines, the operation fails with the
explicit range error (targets below 1 instead fall through to the fallback
window, as the counterexample shows). -/
theorem c2_amended_out_of_range (fileText : String) (t : Int)
    (h : ((splitLines fileText).length : Int) < t) :
    getCodeContext fileText t = .error (.generic ("Target line " ++ toString t ++
      " exceeds file length " ++ toString (splitLines fileText).length)) := by
  unfold getCodeContext getCodeContextLines
  rw [if_pos (by omega)]

/-- Witness for C2 (amended): target line 5 on a 2-line file. -/
theorem c2_amended_out_of_range_witness :
    getCodeContext "a\nb" 5 = .error (.generic ("Target line " ++ toString (5 : Int) ++
      " exceeds file length " ++ toString (splitLines "a\nb").length)) :=
  c2_amended_out_of_range "a\nb" 5 (by decide)

/-- Claim C3, counterexample: with the target on line 2 (`junk`, below a
complete one-line method), the backward scan still matches the method on
line 1, returning `methodStart = methodEnd = 1 < targetLine = 2`: the
resolved range does not enclose the target line. -/
theorem c3_counterexample :
    findMethodBoundaries ["void f() \x7b\x7d", "junk"] 1 1 = some ⟨1, 1⟩ ∧
      ¬((1 : Int) + 1 ≤ 1) :=
  ⟨rfl, by decide⟩

/-- Claim C3, amended: only the lower bound holds — whenever
`findMethodBoundaries` returns a result, `methodStart ≤ TargetLine`
(with `TargetLine = startLineNumber + targetLineIndex`); the upper bound
`TargetLine ≤ methodEnd` can fail when the matched method ends above the
target (see the counterexample). -/
theorem c3_amended_lower_bound (lines : List String) (tIdx s : Int) (mb : MethodBoundaries)
    (h : findMethodBoundaries lines tIdx s = some mb) : mb.methodStart ≤ s + tIdx := by
  obtain ⟨i, j, b, hscan, hst, _, _, _, _, _⟩ := findMB_struct lines tIdx s mb h
  have hi := idxList_mem_le tIdx i (scanBackL_some lines _ i j hscan).1
  have hm : ((mergeAnnot lines i : Nat) : Int) ≤ (i : Int) := by
    exact_mod_cast mergeAnnot_le lines i
  rw [hst]
  omega

/-- Witness for C3 (amended) on a concrete resolved method. -/
theorem c3_amended_lower_bound_witness :
    (⟨1, 2⟩ : MethodBoundaries).methodStart ≤ (1 : Int) + 1 :=
  c3_amended_lower_bound ["void g() \x7b", "\x7d"] 1 1 ⟨1, 2⟩ rfl

/-- Claim C4, counterexample: for a modifier-led method the final re-scan of
the resolved range resets `startLine` to the first line matching the modifier
signature pattern, so the contiguous annotation line 1 is dropped:
`startLine = 2`, not 1. -/
theorem c4_counterexample :
    getCodeContextLines ["@Override", "public void f() \x7b", "\x7d"] 2 =
      .ok ⟨"public void f() \x7b\n\x7d", 2, 3⟩ ∧ (2 : Int) ≠ 1 :=
  ⟨rfl, by decide⟩

/-- Completeness half of the re-scan: if every index of the scanned window
fails the modifier signature pattern, the re-scan finds nothing. -/
theorem sigRescanAux_none_of (lines : List String) :
    ∀ (c : Nat) (i : Int),
      (∀ k : Int, i ≤ k → k < i + c →
        rxTest methodSignaturePattern ((lines.getD k.toNat "").toList) = false) →
      sigRescanAux lines i c = none := by
  intro c
  induction c with
  | zero => intro i _; rfl
  | succ n ih =>
    intro i h
    unfold sigRescanAux
    have hf := h i (le_refl i) (by omega)
    rw [if_neg (by rw [hf]; decide)]
    apply ih (i + 1)
    intro k h1 h2
    exact h k (by omega) (by omega)

/-- Soundness half of the re-scan: the first index of the scanned window
satisfying the modifier signature pattern is the one returned. -/
theorem sigRescanAux_first (lines : List String) :
    ∀ (c : Nat) (i v : Int), i ≤ v → v < i + c →
      rxTest methodSignaturePattern ((lines.getD v.toNat "").toList) = true →
      (∀ k : Int, i ≤ k → k < v →
        rxTest methodSignaturePattern ((lines.getD k.toNat "").toList) = false) →
      sigRescanAux lines i c = some v := by
  intro c
  induction c with
  | zero => intro i v h1 h2 _ _; exfalso; omega
  | succ n ih =>
    intro i v h1 h2 hv hfirst
    unfold sigRescanAux
    by_cases hi : v = i
    · subst hi
      rw [if_pos hv]
    · have hlt : i < v := by omega
      have hf := hfirst i (le_refl i) hlt
      rw [if_neg (by rw [hf]; decide)]
      apply ih (i + 1) v (by omega) (by omega) hv
      intro k hk1 hk2
      exact hfirst k (by omega) hk2

/-- Claim C4, amended: the final re-scan of the resolved range decides the
reported `startLine`.  If no line of the range matches the modifier signature
pattern, `startLine` is the merged `methodStart`, so contiguous annotation
lines above a modifier-less signature are included (first conjunct).  If some
line of the range matches — every modifier-led signature does, but so can an
ordinary body line such as `final int x = 5;` — `startLine` is reset to the
first matching line, excluding the annotations and possibly even the
signature (second conjunct, and the counterexample).  A blank line or a `//`
line immediately above the signature stops the annotation merge, so an
annotation separated from the signature by one is excluded from the range
(third conjunct). -/
theorem c4_amended_annotations :
    (∀ (lines : List String) (mb : MethodBoundaries),
      (∀ k : Int, mb.methodStart - 1 ≤ k → k ≤ mb.methodEnd - 1 →
        rxTest methodSignaturePattern ((lines.getD k.toNat "").toList) = false) →
      (methodRangeResult lines mb).startLine = mb.methodStart) ∧
    (∀ (lines : List String) (mb : MethodBoundaries) (v : Int),
      mb.methodStart - 1 ≤ v → v ≤ mb.methodEnd - 1 →
      rxTest methodSignaturePattern ((lines.getD v.toNat "").toList) = true →
      (∀ k : Int, mb.methodStart - 1 ≤ k → k < v →
        rxTest methodSignaturePattern ((lines.getD k.toNat "").toList) = false) →
      (methodRangeResult lines mb).startLine = v + 1) ∧
    (∀ (lines : List String) (k : Nat),
      (trimL ((lines.getD k "").toList)).isEmpty = true ∨
        List.isPrefixOf "//".toList (trimL ((lines.getD k "").toList)) = true →
      mergeAnnot lines (k + 1) = k + 1) := by
  refine ⟨?_, ?_, ?_⟩
  · intro lines mb hall
    unfold methodRangeResult
    dsimp only
    have hnone : sigRescan lines (mb.methodStart - 1) (mb.methodEnd - 1) = none := by
      unfold sigRescan
      apply sigRescanAux_none_of
      intro k h1 h2
      exact hall k h1 (by omega)
    rw [hnone]
    simp only [Option.getD_none]
    omega
  · intro lines mb v h1 h2 hv hfirst
    unfold methodRangeResult
    dsimp only
    have hsome : sigRescan lines (mb.methodStart - 1) (mb.methodEnd - 1) = some v := by
      unfold sigRescan
      exact sigRescanAux_first lines _ _ v h1 (by omega) hv hfirst
    rw [hsome]
    simp only [Option.getD_some]
  · intro lines k hk
    unfold mergeAnnot
    dsimp only
    rcases hk with hk | hk
    · rw [if_pos hk]
    · have hne : ¬((trimL ((lines.getD k "").toList)).isEmpty = true) := by
        cases htl : trimL ((lines.getD k "").toList) with
        | nil => rw [htl] at hk; simp [List.isPrefixOf] at hk
        | cons a t => simp
      rw [if_neg hne, if_pos hk]

/-- Witness for C4 (amended): with no modifier-pattern line in the range, the
annotation stays (`startLine = methodStart = 1`); with the body line
`final int x = 5;` matching the pattern, `startLine` is reset to it
(`startLine = 3`); a blank line at index 1 stops the merge at the signature. -/
theorem c4_amended_annotations_witness :
    (methodRangeResult ["@Override", "void f() \x7b", "\x7d"] ⟨1, 3⟩).startLine = 1 ∧
    (methodRangeResult ["@Override", "void f() \x7b", "  final int x = 5;", "\x7d"]
      ⟨1, 4⟩).startLine = 3 ∧
    mergeAnnot ["@Override", "", "void f() \x7b"] 2 = 2 :=
  ⟨c4_amended_annotations.1 _ ⟨1, 3⟩ (by
      intro k h1 h2
      have h1' : (1 : Int) - 1 ≤ k := h1
      have h2' : k ≤ (3 : Int) - 1 := h2
      have hk : k = 0 ∨ k = 1 ∨ k = 2 := by omega
      rcases hk with rfl | rfl | rfl <;> decide),
    c4_amended_annotations.2.1 _ ⟨1, 4⟩ 2 (by decide) (by decide) (by decide) (by
      intro k h1 h2
      have h1' : (1 : Int) - 1 ≤ k := h1
      have hk : k = 0 ∨ k = 1 := by omega
      rcases hk with rfl | rfl <;> decide),
    c4_amended_annotations.2.2 _ 1 (by decide)⟩

/-- Claim C5: the concrete 10-line scenario — target line 5 inside
`void check() { if (x) { return; } }` on lines 3-7 yields
`startLine = 3`, `endLine = 7` and the method's exact text. -/
theorem c5_concrete_scenario :
    getCodeContextLines
      ["", "", "void check() \x7b", "  if (x) \x7b", "    return;", "  \x7d", "\x7d",
        "", "", ""] 5 =
      .ok ⟨"void check() \x7b\n  if (x) \x7b\n    return;\n  \x7d\n\x7d", 3, 7⟩ :=
  rfl

/-- The success branch returns the original text of exactly the reported
range, provided the resolved indices are within the file. -/
theorem methodRangeResult_code (lines : List String) (mb : MethodBoundaries)
    (h0 : 0 ≤ mb.methodStart - 1) (h1 : mb.methodStart - 1 ≤ mb.methodEnd - 1)
    (h2 : mb.methodEnd - 1 < (lines.length : Int)) :
    (methodRangeResult lines mb).code =
      origRange lines (methodRangeResult lines mb).startLine
        (methodRangeResult lines mb).endLine := by
  unfold methodRangeResult
  dsimp only
  have hSI : 0 ≤ (sigRescan lines (mb.methodStart - 1) (mb.methodEnd - 1)).getD
        (mb.methodStart - 1) ∧
      (sigRescan lines (mb.methodStart - 1) (mb.methodEnd - 1)).getD (mb.methodStart - 1) ≤
        mb.methodEnd - 1 := by
    rcases hr : sigRescan lines (mb.methodStart - 1) (mb.methodEnd - 1) with _ | v
    · simp only [Option.getD_none]
      exact ⟨h0, h1⟩
    · have hb := sigRescan_bounds lines _ _ v hr
      simp only [Option.getD_some]
      omega
  exact code_eq_origRange lines _ (mb.methodEnd - 1) hSI.1 h2 (by omega)

/-- The fallback branch returns the original text of exactly the reported
window for any in-range target. -/
theorem fallbackResult_code (lines : List String) (t : Int) (h1 : 1 ≤ t)
    (h2 : t ≤ (lines.length : Int)) :
    (fallbackResult lines t).code =
      origRange lines (fallbackResult lines t).startLine (fallbackResult lines t).endLine := by
  unfold fallbackResult
  dsimp only
  exact code_eq_origRange lines _ _ (le_max_left 0 _) (by omega) (by omega)

/-- Claim C6, counterexample: for `targetLine = -51` on a 2-line file the
fallback end index is `-2`, and the JS `slice` with end `-1` returns the
first line while the reported range `1 .. -1` denotes no lines at all: the
`code` field is not the text of lines `startLine..endLine`. -/
theorem c6_counterexample :
    getCodeContextLines ["a", "b"] (-51) = .ok ⟨"a", 1, -1⟩ ∧
      origRange ["a", "b"] 1 (-1) = "" ∧ "a" ≠ "" :=
  ⟨rfl, rfl, by decide⟩

/-- Claim C6, amended: for every successful call with `targetLine ≥ 1` the
`code` field equals the exact original (unscrubbed) text of lines
`startLine..endLine` joined with newlines — scrubbing never leaks into the
output; only pathological negative targets (≤ -51, not rejected by
validation, see C2) can make the fallback's JS negative-slice semantics
diverge from the reported range. -/
theorem c6_amended_code_matches_range (lines : List String) (t : Int) (c : CodeContext)
    (ht : 1 ≤ t) (h : getCodeContextLines lines t = .ok c) :
    c.code = origRange lines c.startLine c.endLine := by
  unfold getCodeContextLines at h
  split at h
  · exact absurd h (by simp)
  · rename_i hgt
    split at h
    · rename_i mb hmb
      obtain rfl : c = methodRangeResult lines mb := (Except.ok.inj h).symm
      obtain ⟨i, j, b, hscan, hst, hen, hmi, hij, hjb, hblen⟩ :=
        findMB_struct lines (t - 1) 1 mb hmb
      have hm0 : (0 : Int) ≤ ((mergeAnnot lines i : Nat) : Int) := Int.natCast_nonneg _
      have hmb' : ((mergeAnnot lines i : Nat) : Int) ≤ ((b : Nat) : Int) := by
        exact_mod_cast le_trans (mergeAnnot_le lines i) (le_trans hij hjb)
      have hbl : ((b : Nat) : Int) < (lines.length : Int) := by exact_mod_cast hblen
      apply methodRangeResult_code
      · rw [hst]; omega
      · rw [hst, hen]; omega
      · rw [hen]; omega
    · obtain rfl : c = fallbackResult lines t := (Except.ok.inj h).symm
      exact fallbackResult_code lines t ht (by omega)

/-- Witness for C6 (amended) on a concrete in-range call. -/
theorem c6_amended_code_matches_range_witness :
    (⟨"int g() \x7b\n\x7d", 1, 2⟩ : CodeContext).code =
      origRange ["int g() \x7b", "\x7d"] 1 2 :=
  c6_amended_code_matches_range ["int g() \x7b", "\x7d"] 1 ⟨"int g() \x7b\n\x7d", 1, 2⟩
    (by decide) rfl

/-- Claim C7: when no boundary is found for an in-range target line, the call
does not fail: it returns the symmetric 50-line window clamped to the file,
with `startLine = max 1 (targetLine - 50)` and
`endLine = min fileLength (targetLine + 50)`. -/
theorem c7_fallback_window (lines : List String) (t : Int) (h1 : 1 ≤ t)
    (h2 : t ≤ (lines.length : Int))
    (h : findMethodBoundaries lines (t - 1) 1 = none) :
    getCodeContextLines lines t = .ok ⟨String.intercalate "\n"
        (jsSlice lines (max 0 (t - 1 - 50)) (min ((lines.length : Int) - 1) (t - 1 + 50) + 1)),
      max 1 (t - 50), min (lines.length : Int) (t + 50)⟩ := by
  unfold getCodeContextLines
  rw [if_neg (by omega), h]
  unfold fallbackResult
  dsimp only
  apply congrArg Except.ok
  have e3 : max 0 (t - 1 - 50) + 1 = max 1 (t - 50) := by omega
  have e4 : min ((lines.length : Int) - 1) (t - 1 + 50) + 1 =
      min (lines.length : Int) (t + 50) := by omega
  rw [e3, e4]

/-- Witness for C7: a one-line file whose line is no method signature. -/
theorem c7_fallback_window_witness :
    getCodeContextLines ["junk"] 1 = .ok ⟨String.intercalate "\n"
        (jsSlice ["junk"] (max 0 ((1 : Int) - 1 - 50))
          (min (((["junk"] : List String).length : Int) - 1) ((1 : Int) - 1 + 50) + 1)),
      max 1 ((1 : Int) - 50), min ((["junk"] : List String).length : Int) ((1 : Int) + 50)⟩ :=
  c7_fallback_window ["junk"] 1 (by decide) (by decide) rfl

/-- Claim C8, counterexample: a modifier-less bodyless declaration preceded by
a contiguous annotation line resolves to `startLine = 1 ≠ endLine = 2` (the
annotation is merged in and the re-scan finds no modifier line to reset to),
not `startLine = endLine = ` the signature line 2. -/
theorem c8_counterexample :
    getCodeContextLines ["@Deprecated", "int foo();"] 2 =
      .ok ⟨"@Deprecated\nint foo();", 1, 2⟩ ∧ (1 : Int) ≠ 2 :=
  ⟨rfl, by decide⟩

/-- Claim C8, amended: when the located signature is a single line `i` (the
backward scan returns `(i, i)`), it is a bodyless declaration (`;`-terminated,
no `{`), and no annotation lines were merged above it, `getCodeContext`
returns `startLine = endLine = i + 1`, the signature line; with merged
annotations above a modifier-less declaration, `startLine` moves up to the
first annotation instead (counterexample). -/
theorem c8_amended_bodyless (lines : List String) (t : Int) (i : Nat)
    (_h1 : 1 ≤ t) (h2 : t ≤ (lines.length : Int))
    (hscan : scanBackL lines (idxList (t - 1)) = some (i, i))
    (hmerge : mergeAnnot lines i = i)
    (hbody : bodylessAt lines i = true) :
    ∃ codeStr, getCodeContextLines lines t = .ok ⟨codeStr, (i : Int) + 1, (i : Int) + 1⟩ := by
  unfold getCodeContextLines findMethodBoundaries
  rw [if_neg (by omega), hscan]
  dsimp only
  rw [hmerge, hbody]
  simp only [if_true]
  unfold methodRangeResult
  dsimp only
  have hA : (1 : Int) + (i : Int) - 1 = (i : Int) := by omega
  rw [hA]
  have hstart : (sigRescan lines (i : Int) (i : Int)).getD (i : Int) = (i : Int) := by
    unfold sigRescan
    have hc : ((i : Int) + 1 - (i : Int)).toNat = 1 := by omega
    rw [hc]
    unfold sigRescanAux
    split
    · simp only [Option.getD_some]
    · simp only [sigRescanAux, Option.getD_none]
  rw [hstart]
  exact ⟨_, rfl⟩

/-- Witness for C8 (amended): `int foo();` alone in the file. -/
theorem c8_amended_bodyless_witness :
    ∃ codeStr, getCodeContextLines ["int foo();"] 1 =
      .ok ⟨codeStr, ((0 : Nat) : Int) + 1, ((0 : Nat) : Int) + 1⟩ :=
  c8_amended_bodyless ["int foo();"] 1 0 (by decide) (by decide) (by decide) (by decide)
    (by decide)

/-- Claim C9: if the body scan reaches end of file with the nesting level
still positive after an opening brace was seen (`brk = none`, `seen = true`,
`level > 0`), the method is resolved to extend to the last line of the file
(`methodEnd = startLineNumber + length - 1`); being a total function, the
boundary resolution cannot throw. -/
theorem c9_unbalanced_extends_to_eof (lines : List String) (tIdx s : Int) (i j : Nat)
    (lvl : Int)
    (hscan : scanBackL lines (idxList tIdx) = some (i, j))
    (hbody : bodylessAt lines j = false)
    (hloop : braceLoop (lines.drop j) j false 0 false = ⟨none, true, lvl⟩)
    (hpos : 0 < lvl) :
    findMethodBoundaries lines tIdx s =
      some ⟨s + (mergeAnnot lines i : Int), s + ((lines.length : Int) - 1)⟩ := by
  unfold findMethodBoundaries
  rw [hscan]
  dsimp only
  rw [hbody]
  simp only [Bool.false_eq_true, if_false]
  rw [hloop]
  dsimp only
  have hne : (lvl != 0) = true := by simp; omega
  simp only [Bool.not_true, Bool.false_eq_true, if_false, hne, if_true]

/-- Witness for C9: `void f() {` never closed. -/
theorem c9_unbalanced_extends_to_eof_witness :
    (0 : Int) < 1 ∧ findMethodBoundaries ["void f() \x7b", "x"] 0 1 =
      some ⟨1 + (mergeAnnot ["void f() \x7b", "x"] 0 : Int),
        1 + (((["void f() \x7b", "x"] : List String).length : Int) - 1)⟩ :=
  ⟨by decide, c9_unbalanced_extends_to_eof ["void f() \x7b", "x"] 0 1 0 0 1 (by decide)
    (by decide) (by decide) (by decide)⟩

/-- Claim C10: an axios error from the upstream fetch is not propagated —
`getCodeContext` returns a `CodeContext` whose `startLine` and `endLine` both
equal the requested target line and whose `code` is the bracketed
error-message string; a non-axios exception (the out-of-range `Error`) is
rethrown to the caller. -/
theorem c10_axios_error_handling :
    (∀ (e : AxiosErrorInfo) (t : Int),
      getCodeContextFetch (.error e) t = .ok ⟨axiosFailCode e, t, t⟩) ∧
    (∀ (lines : List String) (t : Int), ((lines.length : Int)) < t →
      getCodeContextFetch (.ok lines) t = .error (.generic ("Target line " ++ toString t ++
        " exceeds file length " ++ toString lines.length))) := by
  constructor
  · intro e t
    rfl
  · intro lines t h
    unfold getCodeContextFetch getCodeContextLines
    dsimp only
    rw [if_pos (by omega)]

/-- Witness for C10: a concrete 404 and a concrete out-of-range target. -/
theorem c10_axios_error_handling_witness :
    getCodeContextFetch (.error ⟨some 404, "boom"⟩) 7 =
      .ok ⟨axiosFailCode ⟨some 404, "boom"⟩, 7, 7⟩ ∧
    getCodeContextFetch (.ok ["a"]) 3 = .error (.generic ("Target line " ++ toString (3 : Int) ++
      " exceeds file length " ++ toString (1 : Nat))) :=
  ⟨c10_axios_error_handling.1 ⟨some 404, "boom"⟩ 7,
    c10_axios_error_handling.2 ["a"] 3 (by decide)⟩
